import Mathlib

/-!
Verification development for the `emigrate` schema-migration engine.

The Go sources are shallowly embedded: the database handle (`*sql.DB` /
`*sql.Tx`) is an opaque transactional resource, modelled as an abstract
state type `σ` together with a record `Conn σ` of the operations the
engine invokes on it (begin / query the version / exec the fixed
statements / commit / rollback).  Each engine function threads the state
explicitly and additionally records the calls it makes against the
resource as a list of `Event`s, so that claims about "no transaction was
opened", "the action was never invoked", "the transaction was rolled
back" are directly readable off the result.  Fallible Go functions
return `Except`.

A concrete, executable instantiation `quietConn` over the one-table
store (`emigrate (version INTEGER)`) models an otherwise undisturbed
database; scripted connections model fault injection and concurrent
interference, mirroring the sqlmock-based tests of the repository.
-/

set_option maxHeartbeats 1000000
set_option maxRecDepth 100000

namespace Emigrate

/-- Opaque errors coming back from the external resources (database driver,
filesystem).  The engine never inspects these; it only propagates them. -/
inductive GoErr
  | noRows
  | noSuchTable
  | tableExists
  | txClosed
  | pathNotFound
  | external (code : Nat)
  deriving DecidableEq, Repr

/-- The engine's own error values (migration.go / unnamed/part_000, the
package-level `errors.New` values). -/
inductive EmigrateErr
  | missingCurrentMigration
  | downgradesUnsupported
  | migrationVersionChanged
  | initVersionMismatch
  deriving DecidableEq, Repr

/-- An error returned by a Migrator entry point: either one of the engine's
own sentinel errors or an external error propagated verbatim. -/
inductive Err
  | em (e : EmigrateErr)
  | go (e : GoErr)
  deriving DecidableEq, Repr

/-- Calls the engine makes against the transactional resource, recorded in
order.  `upgradeRun v` marks the invocation of the upgrade action of the
migration with version `v`; `execSetVersion v` the execution of the
`QuerySetVersion v` statement. -/
inductive Event
  | beginTx
  | commit
  | rollback
  | upgradeRun (version : Int)
  | execSetVersion (version : Int)
  | execCreateTable
  | execInsertVersion
  deriving DecidableEq, Repr

/-- The operations the engine performs on the database, as state
transformers over an abstract resource state `σ`.  `queryVersion` models
`db.QueryRow(QueryGetCurrentVersion).Scan(&v)`; `execSetVersion v` models
`tx.Exec(QuerySetVersion(v))`; `execCreateTable` and `execInsertVersion`
model `tx.Exec` of the two bootstrap statements. -/
structure Conn (σ : Type) where
  beginTx : σ → σ × Except GoErr Unit
  queryVersion : σ → σ × Except GoErr Int
  execSetVersion : Int → σ → σ × Except GoErr Unit
  execCreateTable : σ → σ × Except GoErr Unit
  execInsertVersion : σ → σ × Except GoErr Unit
  commitTx : σ → σ × Except GoErr Unit
  rollbackTx : σ → σ × Except GoErr Unit

/-- The `Migration` interface as the Migrator consumes it: a version number
and an upgrade action run against the open transaction.  The action is
opaque to the engine; it may change the resource state and may fail. -/
structure Mig (σ : Type) where
  version : Int
  Upgrade : σ → σ × Except GoErr Unit

/-- The `Migrator` struct: the database handle and the owned migration
list. -/
structure Migrator (σ : Type) where
  conn : Conn σ
  migrations : List (Mig σ)

/-- Result of running an engine entry point: final resource state, the
ordered list of calls made against the resource, and the Go return
value. -/
structure Outcome (σ α : Type) where
  state : σ
  trace : List Event
  result : Except Err α

/-- Log line built by `UpgradeToVersion` when the database is already at the
requested version. -/
def alreadyCurrentMessage : String := "emigrate: database already at current version"

/-- Log line appended after each successfully applied migration
(`fmt.Sprintf("emigrate: upgraded to version %d", v)`). -/
def upgradedMessage (v : Int) : String := "emigrate: upgraded to version " ++ toString v

/-- Insertion step of the sort; keeps elements ordered by `ver`. -/
def insertByVersion (ver : α → Int) (x : α) : List α → List α
  | [] => [x]
  | y :: ys => if ver x ≤ ver y then x :: y :: ys else y :: insertByVersion ver x ys

/-- Model of `sort.Sort(byVersion(...))`: produce the list reordered
ascending by version.  Go's `sort.Sort` guarantees only some sorted
permutation (it is unstable); this deterministic insertion sort is one
such permutation, which is exact whenever versions are distinct. -/
def sortByVersion (ver : α → Int) : List α → List α
  | [] => []
  | x :: xs => insertByVersion ver x (sortByVersion ver xs)

/-- Model of stdlib `sort.Search(len(a), fun i => a[i].Version() >= v)`: the
smallest index whose element has version `≥ v` (list length when none),
which is what binary search returns on a version-sorted list. -/
def searchGE (ver : α → Int) (v : Int) : List α → Nat
  | [] => 0
  | x :: xs => if ver x ≥ v then 0 else searchGE ver v xs + 1

/-- `byVersion.Search` (migration.go / unnamed/part_000): the index from
`sort.Search` plus whether the element there has exactly version `v`. -/
def searchVersion (ver : α → Int) (l : List α) (v : Int) : Nat × Bool :=
  match l[searchGE ver v l]? with
  | some x => if ver x = v then (searchGE ver v l, true) else (searchGE ver v l, false)
  | none => (searchGE ver v l, false)

/-- `Migrator.apply` (function.go, latest revision, lines 248-281; the same
code appears in migration.go lines 105-141): begin a transaction, re-read
the current version, guard it against `migration.Version()-1`, run the
upgrade action, write the new version, commit.  Error paths mirror the
source exactly — in particular the two early `return err` paths after a
successful begin perform neither commit nor rollback. -/
def Migrator.apply (m : Migrator σ) (migration : Mig σ) (s : σ) : Outcome σ Unit :=
  match m.conn.beginTx s with
  | (s1, .error e) => ⟨s1, [], .error (.go e)⟩
  | (s1, .ok _) =>
    match m.conn.queryVersion s1 with
    | (s2, .error e) => ⟨s2, [.beginTx], .error (.go e)⟩
    | (s2, .ok current) =>
      if current ≠ migration.version - 1 then
        ⟨s2, [.beginTx], .error (.em .migrationVersionChanged)⟩
      else
        match migration.Upgrade s2 with
        | (s3, .error e) =>
          match m.conn.rollbackTx s3 with
          | (s4, _) =>
            ⟨s4, [.beginTx, .upgradeRun migration.version, .rollback], .error (.go e)⟩
        | (s3, .ok _) =>
          match m.conn.execSetVersion migration.version s3 with
          | (s4, .error e) =>
            match m.conn.rollbackTx s4 with
            | (s5, _) =>
              ⟨s5, [.beginTx, .upgradeRun migration.version,
                    .execSetVersion migration.version, .rollback], .error (.go e)⟩
          | (s4, .ok _) =>
            match m.conn.commitTx s4 with
            | (s5, .error e) =>
              match m.conn.rollbackTx s5 with
              | (s6, _) =>
                ⟨s6, [.beginTx, .upgradeRun migration.version,
                      .execSetVersion migration.version, .commit, .rollback], .error (.go e)⟩
            | (s5, .ok _) =>
              ⟨s5, [.beginTx, .upgradeRun migration.version,
                    .execSetVersion migration.version, .commit], .ok ()⟩

/-- The apply loop of `UpgradeToVersion` (function.go, latest revision,
lines 236-243): apply each migration in turn, stop at the first error,
collect one log line per success. -/
def Migrator.applyLoop (m : Migrator σ) (migs : List (Mig σ)) (s : σ) :
    Outcome σ (List String) :=
  match migs with
  | [] => ⟨s, [], .ok []⟩
  | migration :: rest =>
    match m.apply migration s with
    | ⟨s1, tr, .error e⟩ => ⟨s1, tr, .error e⟩
    | ⟨s1, tr, .ok _⟩ =>
      match m.applyLoop rest s1 with
      | ⟨s2, tr2, .error e⟩ => ⟨s2, tr ++ tr2, .error e⟩
      | ⟨s2, tr2, .ok log⟩ => ⟨s2, tr ++ tr2, .ok (upgradedMessage migration.version :: log)⟩

/-- `Migrator.UpgradeToVersion` (function.go, latest revision, lines
214-246): read the current version, reject downgrades, short-circuit when
already current, sort the owned set, select the sub-list strictly after
the binary-search hit for `current` (the whole sorted set when
`current = 0`), and run the apply loop over it. -/
def Migrator.UpgradeToVersion (m : Migrator σ) (version : Int) (s : σ) :
    Outcome σ (List String) :=
  match m.conn.queryVersion s with
  | (s1, .error e) => ⟨s1, [], .error (.go e)⟩
  | (s1, .ok current) =>
    if version < current then ⟨s1, [], .error (.em .downgradesUnsupported)⟩
    else if current = version then ⟨s1, [], .ok [alreadyCurrentMessage]⟩
    else
      let sorted := sortByVersion Mig.version m.migrations
      if current > 0 then
        match searchVersion Mig.version sorted current with
        | (idx, true) => m.applyLoop (sorted.drop (idx + 1)) s1
        | (_, false) => ⟨s1, [], .error (.em .missingCurrentMigration)⟩
      else m.applyLoop sorted s1

/-- `Migrator.MaxVersion` (function.go, latest revision, lines 192-200):
fold starting from 0, keeping any version `≥` the running maximum. -/
def Migrator.MaxVersion (m : Migrator σ) : Int :=
  m.migrations.foldl
    (fun mx migration => if migration.version ≥ mx then migration.version else mx) 0

/-- `Migrator.Upgrade` (function.go, latest revision, lines 208-211). -/
def Migrator.Upgrade (m : Migrator σ) (s : σ) : Outcome σ (List String) :=
  m.UpgradeToVersion m.MaxVersion s

/-- The target version as the specification words it: the highest version
present among the owned migration records, 0 for an empty set.  This
definition follows the spec text, to be compared against
`Migrator.MaxVersion` from the source. -/
def specHighestVersion (migs : List (Mig σ)) : Int :=
  match migs with
  | [] => 0
  | migration :: rest => rest.foldl (fun a mg => max a mg.version) migration.version

/-- `Migrator.Init` (function.go, latest revision, lines 285-319): probe the
version; success means already initialized (no-op).  Otherwise create the
table and insert the initial 0 row inside one transaction, commit, then
re-read and verify the stored value is exactly 0. -/
def Migrator.Init (m : Migrator σ) (s : σ) : Outcome σ Unit :=
  match m.conn.queryVersion s with
  | (s1, .ok _) => ⟨s1, [], .ok ()⟩
  | (s1, .error _) =>
    match m.conn.beginTx s1 with
    | (s2, .error e) => ⟨s2, [], .error (.go e)⟩
    | (s2, .ok _) =>
      match m.conn.execCreateTable s2 with
      | (s3, .error e) => ⟨s3, [.beginTx], .error (.go e)⟩
      | (s3, .ok _) =>
        match m.conn.execInsertVersion s3 with
        | (s4, .error e) => ⟨s4, [.beginTx, .execCreateTable], .error (.go e)⟩
        | (s4, .ok _) =>
          match m.conn.commitTx s4 with
          | (s5, .error e) =>
            ⟨s5, [.beginTx, .execCreateTable, .execInsertVersion], .error (.go e)⟩
          | (s5, .ok _) =>
            match m.conn.queryVersion s5 with
            | (s6, .error e) =>
              ⟨s6, [.beginTx, .execCreateTable, .execInsertVersion, .commit],
               .error (.go e)⟩
            | (s6, .ok v) =>
              if v ≠ 0 then
                ⟨s6, [.beginTx, .execCreateTable, .execInsertVersion, .commit],
                 .error (.em .initVersionMismatch)⟩
              else
                ⟨s6, [.beginTx, .execCreateTable, .execInsertVersion, .commit], .ok ()⟩

/-- The concrete one-table version store.  `committed` is the `emigrate`
table as visible outside any transaction (`none` when the table does not
exist, otherwise its rows).  `tx` is `some t` when a transaction is open,
with `t` the staged table contents. -/
structure Store where
  committed : Option (List Int)
  tx : Option (Option (List Int))
  deriving DecidableEq, Repr

/-- Reading `SELECT version FROM emigrate LIMIT 1` from table contents:
missing table and empty table are driver errors, otherwise the first
row. -/
def readVersionRows : Option (List Int) → Except GoErr Int
  | none => .error .noSuchTable
  | some [] => .error .noRows
  | some (v :: _) => .ok v

/-- An otherwise-undisturbed database over the one-table store: begin
snapshots the committed table, reads see the committed table, the fixed
statements act on the staged table, commit publishes it.  `UPDATE`
rewrites every row (the statement has no WHERE clause), `INSERT` appends
a 0 row, `CREATE TABLE` fails if the table already exists. -/
def quietConn : Conn Store where
  beginTx := fun s => ({ s with tx := some s.committed }, .ok ())
  queryVersion := fun s => (s, readVersionRows s.committed)
  execSetVersion := fun v s =>
    match s.tx with
    | some (some rows) => ({ s with tx := some (some (rows.map fun _ => v)) }, .ok ())
    | some none => (s, .error .noSuchTable)
    | none => (s, .error .txClosed)
  execCreateTable := fun s =>
    match s.tx with
    | some none => ({ s with tx := some (some []) }, .ok ())
    | some (some _) => (s, .error .tableExists)
    | none => (s, .error .txClosed)
  execInsertVersion := fun s =>
    match s.tx with
    | some (some rows) => ({ s with tx := some (some (rows ++ [0])) }, .ok ())
    | some none => (s, .error .noSuchTable)
    | none => (s, .error .txClosed)
  commitTx := fun s =>
    match s.tx with
    | some t => ({ committed := t, tx := none }, .ok ())
    | none => (s, .error .txClosed)
  rollbackTx := fun s => ({ s with tx := none }, .ok ())

/-- The `mockMigration` of the repository's tests: carries a version and an
optional error which its upgrade action returns without touching the
database. -/
def mockMig (v : Int) (e : Option GoErr) : Mig Store :=
  { version := v
    Upgrade := fun s => (s, match e with | none => .ok () | some err => .error err) }

/-- A run of mock migrations with consecutive versions `c+1, c+2, ...` and
the given per-migration action results. -/
def consecMigs (c : Int) : List (Option GoErr) → List (Mig Store)
  | [] => []
  | e :: es => mockMig (c + 1) e :: consecMigs (c + 1) es

/-- The event trace of one successful apply of the migration with version
`v` on the quiet store. -/
def okTrace (v : Int) : List Event :=
  [.beginTx, .upgradeRun v, .execSetVersion v, .commit]

/-- Event trace of `k` consecutive successful applies starting above
version `c`. -/
def okTraces (c : Int) : Nat → List Event
  | 0 => []
  | k + 1 => okTrace (c + 1) ++ okTraces (c + 1) k

/-- Log lines of `k` consecutive successful applies starting above
version `c`. -/
def okLogs (c : Int) : Nat → List String
  | 0 => []
  | k + 1 => upgradedMessage (c + 1) :: okLogs (c + 1) k

/-! ### The fixed SQL statements (unnamed/part_000 and src/migration.go)

The two revisions of the query file agree on everything except the table
named by the update statement: the later revision (unnamed/part_000)
updates `emigrate`, the revision in src/migration.go updates
`migration`.  A tiny two-table relational model lets us execute both. -/

/-- `QueryGetCurrentVersion` (identical in both revisions). -/
def QueryGetCurrentVersion : String := "SELECT version FROM emigrate LIMIT 1"

/-- `QuerySetVersion` as defined in unnamed/part_000 (the revision paired
with the Migrator that uses `QueryInsertVersion`). -/
def QuerySetVersion (version : Int) : String :=
  "UPDATE emigrate SET version = " ++ toString version

/-- `QuerySetVersion` as defined in src/migration.go lines 21-23: it names
table `migration`, not `emigrate`. -/
def QuerySetVersionMigrationGo (version : Int) : String :=
  "UPDATE migration SET version = " ++ toString version

/-- `QueryCreateTable` (identical in both revisions). -/
def QueryCreateTable : String := "CREATE TABLE emigrate (version INTEGER)"

/-- `QueryInsertVersion` (unnamed/part_000 only). -/
def QueryInsertVersion : String := "INSERT INTO emigrate (version) VALUES (0)"

/-- Numeric value of a list of decimal digit characters. -/
def digitsVal (cs : List Char) : Nat :=
  cs.foldl (fun a c => a * 10 + (c.toNat - 48)) 0

/-- Parse a (possibly negative) decimal integer literal; `none` when the
characters are not entirely one. -/
def parseDecInt : List Char → Option Int
  | [] => none
  | c :: cs =>
    if c = '-' then
      if cs ≠ [] ∧ cs.all Char.isDigit then some (-(digitsVal cs : Int)) else none
    else if (c :: cs).all Char.isDigit then some ((digitsVal (c :: cs) : Int))
    else none

/-- Strip an expected leading character sequence, returning the remainder
when it is present. -/
def dropLeading : List Char → List Char → Option (List Char)
  | [], cs => some cs
  | _ :: _, [] => none
  | p :: ps, c :: cs => if c = p then dropLeading ps cs else none

/-- A database with the two table names that occur in the statements.
Each table is absent (`none`) or a list of integer rows. -/
structure MiniDb where
  emigrateRows : Option (List Int)
  migrationRows : Option (List Int)
  deriving DecidableEq, Repr

/-- Which table an update statement addresses and the value it writes, read
off the statement text. -/
def updateTableOf (q : String) : Option (String × Int) :=
  match dropLeading "UPDATE emigrate SET version = ".toList q.toList with
  | some rest => (parseDecInt rest).map (fun v => ("emigrate", v))
  | none =>
    match dropLeading "UPDATE migration SET version = ".toList q.toList with
    | some rest => (parseDecInt rest).map (fun v => ("migration", v))
    | none => none

/-- Execute an update statement against the two-table database: rewrite
every row of the addressed table (the statements carry no WHERE clause);
updating a missing table is a driver error. -/
def runUpdate (q : String) (db : MiniDb) : MiniDb × Except GoErr Unit :=
  match updateTableOf q with
  | some ("emigrate", v) =>
    match db.emigrateRows with
    | some rows => ({ db with emigrateRows := some (rows.map fun _ => v) }, .ok ())
    | none => (db, .error .noSuchTable)
  | some ("migration", v) =>
    match db.migrationRows with
    | some rows => ({ db with migrationRows := some (rows.map fun _ => v) }, .ok ())
    | none => (db, .error .noSuchTable)
  | some (_, _) => (db, .error (.external 0))
  | none => (db, .error (.external 0))

/-- Execute the read statement: `QueryGetCurrentVersion` reads the first
row of `emigrate`. -/
def runSelect (q : String) (db : MiniDb) : Except GoErr Int :=
  if q = QueryGetCurrentVersion then readVersionRows db.emigrateRows
  else .error (.external 0)

/-! ### Migration record variants (unnamed/part_004 and function.go lines 1-23) -/

/-- `stringMigration` (unnamed/part_004): version plus literal up/down SQL
bodies. -/
structure StringMigration where
  version : Int
  up : String
  down : String
  deriving DecidableEq, Repr

/-- Error type of a downgrade call: the explicit no-downgrade error
(`fmt.Errorf("emigrate: No downgrade defined for migration %d", version)`)
or an error from executing the script. -/
inductive DowngradeErr
  | noDowngradeDefined (version : Int)
  | go (e : GoErr)
  deriving DecidableEq, Repr

/-- `stringMigration.Downgrade` (unnamed/part_004 lines 29-34): an empty
down body yields the explicit error before anything touches the
transaction; otherwise `tx.Exec(m.down)` runs.  `execStmt` is the
transactional resource; the `List String` component records the
statements executed against it. -/
def StringMigration.Downgrade (execStmt : String → σ → σ × Except GoErr Unit)
    (m : StringMigration) (s : σ) : σ × List String × Except DowngradeErr Unit :=
  if m.down = "" then (s, [], .error (.noDowngradeDefined m.version))
  else
    match execStmt m.down s with
    | (s1, .error e) => (s1, [m.down], .error (.go e))
    | (s1, .ok _) => (s1, [m.down], .ok ())

/-- `functionMigration` (function.go lines 7-11): version plus nil-able Go
function fields for the up and down actions (`none` models a nil
function value). -/
structure FunctionMigration (σ : Type) where
  version : Int
  up : Option (σ → σ × Except GoErr Unit)
  down : Option (σ → σ × Except GoErr Unit)

/-- `functionMigration.Downgrade` (function.go lines 21-23): `return
m.down(tx)` with no nil check.  Calling a nil Go function value panics,
so the result is `none` (process crash) exactly when `down` is nil;
there is no path that turns a nil action into an error value. -/
def FunctionMigration.Downgrade (m : FunctionMigration σ) (s : σ) :
    Option (σ × Except GoErr Unit) :=
  match m.down with
  | none => none
  | some f => some (f s)

/-! ### Migration discovery (dir.go, the `migrationFinder` revision) -/

/-- What `os.FileInfo` gives discovery: the entry's name and whether it is
a directory; plus the contents the mocked filesystem would serve. -/
structure FileEntry where
  name : String
  contents : String
  isDir : Bool
  deriving DecidableEq, Repr

/-- `migrationFinder` (dir.go lines 26-29): injected directory-read and
file-read functions. -/
structure migrationFinder where
  readDir : String → Except GoErr (List FileEntry)
  readFile : String → Except GoErr String

/-- `nameInfo` (dir.go lines 57-63). -/
structure NameInfo where
  dir : String
  name : String
  version : Int
  way : String
  ext : String
  deriving DecidableEq, Repr

/-- Discovery errors (dir.go): I/O errors propagated verbatim, the
invalid-version error, the mixed-extension error, the
`DuplicateMigrationError` and `MissingMigrationError` structs carrying
direction and version, and the `log.Fatalf` calls (which terminate the
process) on caller logic errors. -/
inductive DirErr
  | io (e : GoErr)
  | invalidVersion (name : String)
  | mixedExtensions (version : Int)
  | duplicateMigration (direction : String) (version : Int)
  | missingMigration (direction : String) (version : Int)
  | fatalInvalidInfos
  deriving DecidableEq, Repr

/-- Longest leading run of decimal digits, with the remainder. -/
def spanDigits : List Char → List Char × List Char
  | [] => ([], [])
  | c :: cs =>
    if c.isDigit then
      match spanDigits cs with
      | (d, r) => (c :: d, r)
    else ([], c :: cs)

/-- Literal match of the `(up|down)` group. -/
def matchWay : List Char → Option (String × List Char)
  | 'u' :: 'p' :: rest => some ("up", rest)
  | 'd' :: 'o' :: 'w' :: 'n' :: rest => some ("down", rest)
  | _ => none

/-- Match of the `([Ss][Qq][Ll])` group anchored at the end of the name. -/
def matchSqlExt : List Char → Option String
  | [c1, c2, c3] =>
    if (c1 = 'S' || c1 = 's') && (c2 = 'Q' || c2 = 'q') && (c3 = 'L' || c3 = 'l') then
      some (String.mk [c1, c2, c3])
    else none
  | _ => none

/-- `nameRegexp` (dir.go line 54): full match of
`^(\d+)[-_](up|down)\.([Ss][Qq][Ll])$`, returning the three capture
groups. -/
def nameRegexpMatch (name : String) : Option (List Char × String × String) :=
  match spanDigits name.toList with
  | ([], _) => none
  | (digits, rest) =>
    match rest with
    | sep :: rest2 =>
      if sep = '-' || sep = '_' then
        match matchWay rest2 with
        | some (way, rest3) =>
          match rest3 with
          | '.' :: rest4 =>
            match matchSqlExt rest4 with
            | some ext => some (digits, way, ext)
            | none => none
          | _ => none
        | none => none
      else none
    | [] => none

/-- `parseNameInfo` (dir.go lines 173-191): regexp mismatch is `ok none`
(the file is silently ignored); a matched name has its digit group parsed
by `strconv.ParseInt(_, 10, 64)` — overflow of int64 or a value below 1
is the invalid-version error. -/
def parseNameInfo (dir name : String) : Except DirErr (Option NameInfo) :=
  match nameRegexpMatch name with
  | none => .ok none
  | some (digits, way, ext) =>
    let val : Nat := digitsVal digits
    if val > 2 ^ 63 - 1 ∨ (val : Int) < 1 then .error (.invalidVersion name)
    else .ok (some ⟨dir, name, (val : Int), way, ext⟩)

/-- `names[info.version] = append(names[info.version], info)`: groups are
kept in first-insertion order, each group accumulating its infos in
arrival order. -/
def insertGroup (groups : List (Int × List NameInfo)) (info : NameInfo) :
    List (Int × List NameInfo) :=
  match groups with
  | [] => [(info.version, [info])]
  | (v, infos) :: rest =>
    if v = info.version then (v, infos ++ [info]) :: rest
    else (v, infos) :: insertGroup rest info

/-- The loop body of `groupByVersion` (dir.go lines 75-91): skip
directories and non-matching names, abort on a parse error, group the
rest by version. -/
def collectInfos (dir : String) :
    List FileEntry → List (Int × List NameInfo) →
    Except DirErr (List (Int × List NameInfo))
  | [], acc => .ok acc
  | f :: fs, acc =>
    if f.isDir then collectInfos dir fs acc
    else
      match parseNameInfo dir f.name with
      | .error e => .error e
      | .ok none => collectInfos dir fs acc
      | .ok (some info) => collectInfos dir fs (insertGroup acc info)

/-- `migrationFinder.groupByVersion` (dir.go lines 68-93).  Go iterates the
resulting map in unspecified order; this model fixes first-insertion
order, which the claims are insensitive to (the final list is sorted). -/
def migrationFinder.groupByVersion (mf : migrationFinder) (dir : String) :
    Except DirErr (List (Int × List NameInfo)) :=
  match mf.readDir dir with
  | .error e => .error (.io e)
  | .ok files => collectInfos dir files []

/-- The per-file loop of `getFileMigration` (dir.go lines 132-161): read
the file, enforce matching extensions, then record the direction,
failing on a second file in the same direction.  The `seen` map is the
pair of booleans. -/
def fileMigLoop (mf : migrationFinder) :
    List NameInfo → StringMigration → Bool → Bool → String →
    Except DirErr StringMigration
  | [], m, seenUp, _, _ =>
    if !seenUp then .error (.missingMigration "up" m.version) else .ok m
  | info :: rest, m, seenUp, seenDown, ext =>
    match mf.readFile (info.dir ++ "/" ++ info.name) with
    | .error e => .error (.io e)
    | .ok contents =>
      if ext ≠ "" ∧ ext ≠ info.ext then .error (.mixedExtensions info.version)
      else
        if info.way = "up" then
          if seenUp then .error (.duplicateMigration "up" info.version)
          else fileMigLoop mf rest { m with up := contents } true seenDown info.ext
        else if info.way = "down" then
          if seenDown then .error (.duplicateMigration "down" info.version)
          else fileMigLoop mf rest { m with down := contents } seenUp true info.ext
        else .error .fatalInvalidInfos

/-- `migrationFinder.getFileMigration` (dir.go lines 115-168): reject
impossible group sizes (the `log.Fatalf` guard), seed the record with the
group's version, run the per-file loop, and require an "up" file. -/
def migrationFinder.getFileMigration (mf : migrationFinder) (names : List NameInfo) :
    Except DirErr StringMigration :=
  match names with
  | [] => .error .fatalInvalidInfos
  | n0 :: _ =>
    if names.length > 2 then .error .fatalInvalidInfos
    else fileMigLoop mf names ⟨n0.version, "", ""⟩ false false ""

/-- Build one migration per version group, aborting on the first error. -/
def buildMigs (mf : migrationFinder) :
    List (Int × List NameInfo) → Except DirErr (List StringMigration)
  | [] => .ok []
  | (_, infos) :: rest =>
    match mf.getFileMigration infos with
    | .error e => .error e
    | .ok m =>
      match buildMigs mf rest with
      | .error e => .error e
      | .ok ms => .ok (m :: ms)

/-- `migrationFinder.getMigrations` (dir.go lines 32-51): group by version,
construct a record per group, sort ascending by version. -/
def migrationFinder.getMigrations (mf : migrationFinder) (dir : String) :
    Except DirErr (List StringMigration) :=
  match mf.groupByVersion dir with
  | .error e => .error e
  | .ok groups =>
    match buildMigs mf groups with
    | .error e => .error e
    | .ok ms => .ok (sortByVersion StringMigration.version ms)

/-- The mocked filesystem of the repository's tests: a single directory
holding named file contents; `readFile` resolves `dir ++ "/" ++ name`. -/
def mockFinder (dir : String) (files : List (String × String)) : migrationFinder where
  readDir := fun d =>
    if d = dir then .ok (files.map fun p => ⟨p.1, p.2, false⟩)
    else .error .pathNotFound
  readFile := fun path =>
    match files.find? (fun p => dir ++ "/" ++ p.1 = path) with
    | some p => .ok p.2
    | none => .error .pathNotFound

/-- A scripted connection used to exercise the init-mismatch path: the
first version probe fails (fresh database), every statement succeeds, and
the re-read after commit returns 7 — as if another actor overwrote the
row between commit and re-read.  The state counts version reads. -/
def mismatchConn : Conn Nat where
  beginTx := fun n => (n, .ok ())
  queryVersion := fun n => (n + 1, if n = 0 then .error .noRows else .ok 7)
  execSetVersion := fun _ n => (n, .ok ())
  execCreateTable := fun n => (n, .ok ())
  execInsertVersion := fun n => (n, .ok ())
  commitTx := fun n => (n, .ok ())
  rollbackTx := fun n => (n, .ok ())

/-! ### Lemmas about the sort and the binary search -/

theorem insertByVersion_perm (ver : α → Int) (x : α) (l : List α) :
    (insertByVersion ver x l).Perm (x :: l) := by
  induction l with
  | nil => simp [insertByVersion]
  | cons y ys ih =>
    by_cases h : ver x ≤ ver y
    · simp [insertByVersion, h]
    · simp only [insertByVersion, if_neg h]
      exact (ih.cons y).trans (List.Perm.swap x y ys)

theorem mem_insertByVersion {ver : α → Int} {x a : α} {l : List α} :
    a ∈ insertByVersion ver x l ↔ a ∈ x :: l :=
  (insertByVersion_perm ver x l).mem_iff

theorem sortByVersion_perm (ver : α → Int) (l : List α) :
    (sortByVersion ver l).Perm l := by
  induction l with
  | nil => simp [sortByVersion]
  | cons x xs ih =>
    exact (insertByVersion_perm ver x (sortByVersion ver xs)).trans (ih.cons x)

theorem mem_sortByVersion {ver : α → Int} {a : α} {l : List α} :
    a ∈ sortByVersion ver l ↔ a ∈ l :=
  (sortByVersion_perm ver l).mem_iff

theorem pairwise_insertByVersion (ver : α → Int) (x : α) {l : List α}
    (h : l.Pairwise (fun a b => ver a ≤ ver b)) :
    (insertByVersion ver x l).Pairwise (fun a b => ver a ≤ ver b) := by
  induction l with
  | nil => simp [insertByVersion]
  | cons y ys ih =>
    rw [List.pairwise_cons] at h
    by_cases hxy : ver x ≤ ver y
    · simp only [insertByVersion, if_pos hxy]
      rw [List.pairwise_cons]
      refine ⟨?_, ?_⟩
      · intro b hb
        rcases List.mem_cons.mp hb with rfl | hb
        · exact hxy
        · exact le_trans hxy (h.1 b hb)
      · rw [List.pairwise_cons]
        exact h
    · simp only [insertByVersion, if_neg hxy]
      rw [List.pairwise_cons]
      refine ⟨?_, ih h.2⟩
      intro b hb
      rcases List.mem_cons.mp (mem_insertByVersion.mp hb) with rfl | hb
      · exact le_of_lt (not_le.mp hxy)
      · exact h.1 b hb

theorem sortByVersion_pairwise (ver : α → Int) (l : List α) :
    (sortByVersion ver l).Pairwise (fun a b => ver a ≤ ver b) := by
  induction l with
  | nil => simp [sortByVersion]
  | cons x xs ih => exact pairwise_insertByVersion ver x ih

theorem sortByVersion_eq_self {ver : α → Int} {l : List α}
    (h : l.Pairwise (fun a b => ver a ≤ ver b)) : sortByVersion ver l = l := by
  induction l with
  | nil => rfl
  | cons x xs ih =>
    rw [List.pairwise_cons] at h
    simp only [sortByVersion, ih h.2]
    cases xs with
    | nil => rfl
    | cons y ys => simp [insertByVersion, h.1 y (by simp)]

theorem searchVersion_true_mem {ver : α → Int} {l : List α} {v : Int} {idx : Nat}
    (h : searchVersion ver l v = (idx, true)) : ∃ x ∈ l, ver x = v := by
  unfold searchVersion at h
  rcases hg : l[searchGE ver v l]? with _ | x
  · rw [hg] at h
    dsimp only at h
    simp at h
  · rw [hg] at h
    dsimp only at h
    by_cases hv : ver x = v
    · exact ⟨x, List.getElem?_mem hg, hv⟩
    · rw [if_neg hv] at h
      simp at h

/-! ### Lemmas about consecutive mock migration runs on the quiet store -/

theorem consecMigs_version_lt (c : Int) (es : List (Option GoErr)) :
    ∀ mig ∈ consecMigs c es, c < mig.version := by
  induction es generalizing c with
  | nil => simp [consecMigs]
  | cons e es ih =>
    intro mig hm
    rcases List.mem_cons.mp hm with rfl | hm
    · simp only [mockMig]
      omega
    · have := ih (c + 1) mig hm
      omega

theorem consecMigs_pairwise (c : Int) (es : List (Option GoErr)) :
    (consecMigs c es).Pairwise (fun a b => Mig.version a ≤ Mig.version b) := by
  induction es generalizing c with
  | nil => simp [consecMigs]
  | cons e es ih =>
    simp only [consecMigs]
    rw [List.pairwise_cons]
    refine ⟨fun b hb => ?_, ih (c + 1)⟩
    have := consecMigs_version_lt (c + 1) es b hb
    simp only [mockMig]
    omega

theorem consecMigs_getElem (es : List (Option GoErr)) (c : Int) (j : Nat)
    (e : Option GoErr) (h : es[j]? = some e) :
    (consecMigs c es)[j]? = some (mockMig (c + 1 + j) e) := by
  induction es generalizing c j with
  | nil => simp at h
  | cons e0 es ih =>
    cases j with
    | zero =>
      simp only [List.getElem?_cons_zero] at h
      cases h
      simp [consecMigs]
    | succ j =>
      simp only [consecMigs, List.getElem?_cons_succ]
      rw [ih (c + 1) j (by simpa using h)]
      have : (c + 1) + 1 + (j : Int) = c + 1 + ((j : Nat) + 1 : Nat) := by
        push_cast
        ring
      rw [this]

theorem consecMigs_drop (es : List (Option GoErr)) (c : Int) (j : Nat) :
    (consecMigs c es).drop j = consecMigs (c + j) (es.drop j) := by
  induction es generalizing c j with
  | nil => simp [consecMigs]
  | cons e es ih =>
    cases j with
    | zero => simp
    | succ j =>
      simp only [consecMigs, List.drop_succ_cons]
      rw [ih (c + 1) j]
      have : (c + 1) + (j : Int) = c + ((j : Nat) + 1 : Nat) := by
        push_cast
        ring
      rw [this]

theorem searchGE_consecMigs (es : List (Option GoErr)) (b : Int) (j : Nat)
    (hj : j < es.length) :
    searchGE Mig.version (b + 1 + j) (consecMigs b es) = j := by
  induction es generalizing b j with
  | nil => simp at hj
  | cons e es ih =>
    cases j with
    | zero =>
      simp only [consecMigs, searchGE, mockMig]
      rw [if_pos (by push_cast; omega)]
    | succ j =>
      simp only [consecMigs, searchGE, mockMig]
      rw [if_neg (by push_cast; omega)]
      have hval : b + 1 + ((j : Nat) + 1 : Nat) = (b + 1) + 1 + (j : Int) := by
        push_cast
        ring
      rw [hval, ih (b + 1) j (by simpa using hj)]

theorem searchVersion_consecMigs (es : List (Option GoErr)) (j : Nat) (e : Option GoErr)
    (h : es[j]? = some e) :
    searchVersion Mig.version (consecMigs 0 es) ((j : Int) + 1) = (j, true) := by
  have hlen : j < es.length := (List.getElem?_eq_some.mp h).1
  have hs : searchGE Mig.version ((j : Int) + 1) (consecMigs 0 es) = j := by
    have h0 : ((j : Int) + 1) = 0 + 1 + (j : Int) := by ring
    rw [h0]
    exact searchGE_consecMigs es 0 j hlen
  unfold searchVersion
  rw [hs, consecMigs_getElem es 0 j e h]
  dsimp only
  rw [if_pos (by simp [mockMig]; ring)]

/-! ### Single steps and runs of the apply loop on the quiet store -/

theorem apply_quiet_ok (migs : List (Mig Store)) (c : Int) :
    Migrator.apply ⟨quietConn, migs⟩ (mockMig (c + 1) none) ⟨some [c], none⟩ =
      ⟨⟨some [c + 1], none⟩, okTrace (c + 1), .ok ()⟩ := by
  simp [Migrator.apply, quietConn, mockMig, readVersionRows, okTrace]

theorem apply_quiet_err (migs : List (Mig Store)) (c : Int) (e : GoErr) :
    Migrator.apply ⟨quietConn, migs⟩ (mockMig (c + 1) (some e)) ⟨some [c], none⟩ =
      ⟨⟨some [c], none⟩, [.beginTx, .upgradeRun (c + 1), .rollback], .error (.go e)⟩ := by
  simp [Migrator.apply, quietConn, mockMig, readVersionRows]

theorem applyLoop_quiet_ok (migs0 : List (Mig Store)) (k : Nat) (c : Int) :
    Migrator.applyLoop ⟨quietConn, migs0⟩ (consecMigs c (List.replicate k none))
      ⟨some [c], none⟩ =
      ⟨⟨some [c + k], none⟩, okTraces c k, .ok (okLogs c k)⟩ := by
  induction k generalizing c with
  | zero => simp [consecMigs, Migrator.applyLoop, okTraces, okLogs, List.replicate]
  | succ k ih =>
    simp only [List.replicate_succ, consecMigs, Migrator.applyLoop]
    rw [apply_quiet_ok migs0 c]
    dsimp only
    rw [ih (c + 1)]
    dsimp only
    have h1 : (c + 1) + (k : Int) = c + ((k : Nat) + 1 : Nat) := by push_cast; ring
    rw [h1]
    simp [okTraces, okLogs, mockMig]

theorem applyLoop_quiet_fail (migs0 : List (Mig Store)) (k : Nat) (c : Int) (e : GoErr)
    (rest : List (Option GoErr)) :
    Migrator.applyLoop ⟨quietConn, migs0⟩
      (consecMigs c (List.replicate k none ++ some e :: rest)) ⟨some [c], none⟩ =
      ⟨⟨some [c + k], none⟩,
       okTraces c k ++ [.beginTx, .upgradeRun (c + k + 1), .rollback], .error (.go e)⟩ := by
  induction k generalizing c with
  | zero =>
    simp only [List.replicate, List.nil_append, consecMigs, Migrator.applyLoop]
    rw [apply_quiet_err migs0 c e]
    dsimp only
    simp [okTraces]
  | succ k ih =>
    simp only [List.replicate_succ, List.cons_append, consecMigs, Migrator.applyLoop]
    rw [apply_quiet_ok migs0 c]
    dsimp only
    simp only [List.append_eq]
    rw [ih (c + 1)]
    dsimp only
    have h2 : (c + 1) + (k : Int) + 1 = c + ((k : Nat) + 1 : Nat) + 1 := by push_cast; ring
    have h1 : (c + 1) + (k : Int) = c + ((k : Nat) + 1 : Nat) := by push_cast; ring
    rw [h2, h1]
    simp [okTraces, List.append_assoc]

theorem quiet_query (v : Int) (rows : List Int) (t : Option (Option (List Int))) :
    quietConn.queryVersion ⟨some (v :: rows), t⟩ = (⟨some (v :: rows), t⟩, .ok v) := rfl

/-- The contiguous-success run: with the owned set carrying exactly
versions `1..c+d`, the database at version `c`, and any target strictly
above `c`, the call applies versions `c+1 .. c+d` in order, one
transaction each, and returns their log. -/
theorem upgradeToVersion_contiguous (c d u : Nat) :
    Migrator.UpgradeToVersion ⟨quietConn, consecMigs 0 (List.replicate (c + d) none)⟩
      ((c : Int) + 1 + u) ⟨some [(c : Int)], none⟩ =
      ⟨⟨some [(c : Int) + (d : Int)], none⟩, okTraces c d, .ok (okLogs c d)⟩ := by
  unfold Migrator.UpgradeToVersion
  dsimp only
  rw [quiet_query]
  dsimp only
  rw [if_neg (by omega)]
  rw [if_neg (by omega)]
  rw [sortByVersion_eq_self (consecMigs_pairwise 0 _)]
  rcases Nat.eq_zero_or_pos c with rfl | hc
  · rw [if_neg (by norm_num)]
    simpa using applyLoop_quiet_ok (consecMigs 0 (List.replicate (0 + d) none)) d 0
  · rw [if_pos (by omega)]
    obtain ⟨j, rfl⟩ : ∃ j : Nat, c = j + 1 := ⟨c - 1, by omega⟩
    have hget : (List.replicate (j + 1 + d) (none : Option GoErr))[j]? = some none := by
      rw [List.getElem?_replicate, if_pos (by omega)]
    have hval : ((j + 1 : Nat) : Int) = (j : Int) + 1 := by push_cast; ring
    have hsv : searchVersion Mig.version
        (consecMigs 0 (List.replicate (j + 1 + d) none)) ((j + 1 : Nat) : Int) =
        (j, true) := by
      rw [hval]
      exact searchVersion_consecMigs (List.replicate (j + 1 + d) none) j none hget
    rw [hsv]
    dsimp only
    rw [consecMigs_drop, List.drop_replicate]
    have harith : (0 : Int) + ((j + 1 : Nat) : Int) = ((j + 1 : Nat) : Int) := by ring
    rw [harith]
    have hd : j + 1 + d - (j + 1) = d := by omega
    rw [hd]
    exact applyLoop_quiet_ok (consecMigs 0 (List.replicate (j + 1 + d) none)) d
      ((j + 1 : Nat) : Int)

/-- The missing-current path, over any connection and any owned set: a
successfully read positive current version with no matching record makes
the call fail before anything touches the database. -/
theorem upgradeToVersion_missing_current {σ : Type} (conn : Conn σ) (migs : List (Mig σ))
    (s0 s1 : σ) (c target : Int)
    (hq : conn.queryVersion s0 = (s1, .ok c)) (hct : c < target) (hc : 0 < c)
    (habs : ∀ mig ∈ migs, mig.version ≠ c) :
    Migrator.UpgradeToVersion ⟨conn, migs⟩ target s0 =
      ⟨s1, [], .error (.em .missingCurrentMigration)⟩ := by
  unfold Migrator.UpgradeToVersion
  dsimp only
  rw [hq]
  dsimp only
  rw [if_neg (not_lt.mpr (le_of_lt hct))]
  rw [if_neg (ne_of_lt hct)]
  rw [if_pos hc]
  rcases hsv : searchVersion Mig.version (sortByVersion Mig.version migs) c with ⟨idx, found⟩
  cases found
  · rfl
  · exfalso
    obtain ⟨x, hxmem, hxv⟩ := searchVersion_true_mem hsv
    exact habs x (mem_sortByVersion.mp hxmem) hxv

/-! ### The fold computing MaxVersion -/

theorem foldl_step_eq_max {σ : Type} (l : List (Mig σ)) (a : Int) :
    l.foldl (fun mx migration => if migration.version ≥ mx then migration.version else mx) a =
      l.foldl (fun mx migration => max mx migration.version) a := by
  induction l generalizing a with
  | nil => rfl
  | cons m l ih =>
    simp only [List.foldl_cons]
    have h : (if m.version ≥ a then m.version else a) = max a m.version := by
      by_cases hc : m.version ≥ a
      · rw [if_pos hc, max_def, if_pos (by omega : a ≤ m.version)]
      · rw [if_neg hc, max_def, if_neg (by omega : ¬a ≤ m.version)]
    rw [h, ih]

theorem foldl_max_split {σ : Type} (l : List (Mig σ)) (a b : Int) :
    l.foldl (fun mx migration => max mx migration.version) (max a b) =
      max a (l.foldl (fun mx migration => max mx migration.version) b) := by
  induction l generalizing b with
  | nil => rfl
  | cons m l ih =>
    simp only [List.foldl_cons]
    rw [max_assoc, ih]

theorem init_le_foldl_max {σ : Type} (l : List (Mig σ)) (b : Int) :
    b ≤ l.foldl (fun mx migration => max mx migration.version) b := by
  induction l generalizing b with
  | nil => simp
  | cons m l ih =>
    simp only [List.foldl_cons]
    exact le_trans (le_max_left b m.version) (ih (max b m.version))

theorem le_foldl_max {σ : Type} {l : List (Mig σ)} {x : Mig σ} (hx : x ∈ l) (b : Int) :
    x.version ≤ l.foldl (fun mx migration => max mx migration.version) b := by
  induction l generalizing b with
  | nil => simp at hx
  | cons m l ih =>
    simp only [List.foldl_cons]
    rcases List.mem_cons.mp hx with rfl | hx
    · exact le_trans (le_max_right b x.version) (init_le_foldl_max l (max b x.version))
    · exact ih hx (max b m.version)

/-- `MaxVersion` computes the highest version clamped from below at 0
(the fold starts at 0): it agrees with the spec's "highest version
present" exactly when that maximum is not negative. -/
theorem maxVersion_eq_clamp {σ : Type} (conn : Conn σ) (migs : List (Mig σ)) :
    Migrator.MaxVersion ⟨conn, migs⟩ = max 0 (specHighestVersion migs) := by
  cases migs with
  | nil => rfl
  | cons m rest =>
    unfold Migrator.MaxVersion specHighestVersion
    dsimp only
    rw [foldl_step_eq_max, List.foldl_cons]
    exact foldl_max_split rest 0 m.version

theorem le_specHighest {σ : Type} {migs : List (Mig σ)} {mig : Mig σ} (hm : mig ∈ migs) :
    mig.version ≤ specHighestVersion migs := by
  cases migs with
  | nil => simp at hm
  | cons m rest =>
    unfold specHighestVersion
    dsimp only
    rcases List.mem_cons.mp hm with rfl | hm
    · exact init_le_foldl_max rest mig.version
    · exact le_foldl_max hm m.version

/-! ### Claim theorems -/

/-- Claim C1, counterexample.  The claim as stated — "the migrations
applied are exactly those strictly after the found position in the sorted
set (the entire sorted set when c = 0), each applied exactly once" — is
false on the code whenever the selected sub-list has a version gap:
with the owned set {1, 3}, current version 0 and target 3, on an
otherwise undisturbed store, the call applies migration 1, then the
per-apply optimistic guard rejects migration 3 (the re-read returns 1,
not 2), so migration 3's upgrade action never runs and the call errors
instead of applying the whole set. -/
theorem upgradeToVersion_gap_halts :
    Migrator.UpgradeToVersion ⟨quietConn, [mockMig 1 none, mockMig 3 none]⟩ 3
      ⟨some [0], none⟩ =
      ⟨⟨some [1], some (some [1])⟩, okTrace 1 ++ [.beginTx],
       .error (.em .migrationVersionChanged)⟩ ∧
    Event.upgradeRun 3 ∉
      (Migrator.UpgradeToVersion ⟨quietConn, [mockMig 1 none, mockMig 3 none]⟩ 3
        ⟨some [0], none⟩).trace :=
  ⟨rfl, by decide⟩

/-- Claim C1, amended.  (1) For every owned migration set and connection:
if the current version c is read successfully, 0 < c < target, and no
record carries version c, the call fails with the missing-current
migration error with an empty event trace — in particular before any
transaction is opened.  (2) When the sorted set's versions are exactly
the contiguous run 1..c+d, the store (undisturbed) is at version
c ≤ c+d, and the target exceeds c, the migrations applied are exactly
those strictly after the found position — all of versions c+1 .. c+d
(the entire set when c = 0) — each applied in its own committed
transaction, exactly once, in strictly ascending version order, as the
explicit event trace `okTraces c d` shows.  The amendment restricts the
claim's "applied exactly" clause to runs on which every apply succeeds
(e.g. contiguous versions on a quiet store); the counterexample shows it
fails otherwise. -/
theorem upgradeToVersion_selection :
    (∀ (σ : Type) (conn : Conn σ) (migs : List (Mig σ)) (s0 s1 : σ) (c target : Int),
      conn.queryVersion s0 = (s1, .ok c) → c < target → 0 < c →
      (∀ mig ∈ migs, mig.version ≠ c) →
      Migrator.UpgradeToVersion ⟨conn, migs⟩ target s0 =
        ⟨s1, [], .error (.em .missingCurrentMigration)⟩) ∧
    (∀ c d u : Nat,
      Migrator.UpgradeToVersion ⟨quietConn, consecMigs 0 (List.replicate (c + d) none)⟩
        ((c : Int) + 1 + u) ⟨some [(c : Int)], none⟩ =
        ⟨⟨some [(c : Int) + (d : Int)], none⟩, okTraces c d, .ok (okLogs c d)⟩) :=
  ⟨fun _ conn migs s0 s1 c target hq hct hc habs =>
     upgradeToVersion_missing_current conn migs s0 s1 c target hq hct hc habs,
   upgradeToVersion_contiguous⟩

/-- Claim C1, witness: both conjuncts at concrete inputs — the missing
record case (current 2, set {1, 3}) and a contiguous run (current 0, set
{1, 2}, target 2). -/
theorem upgradeToVersion_selection_witness :
    Migrator.UpgradeToVersion ⟨quietConn, [mockMig 1 none, mockMig 3 none]⟩ 3
      ⟨some [2], none⟩ = ⟨⟨some [2], none⟩, [], .error (.em .missingCurrentMigration)⟩ ∧
    Migrator.UpgradeToVersion ⟨quietConn, consecMigs 0 (List.replicate 2 none)⟩ 2
      ⟨some [0], none⟩ = ⟨⟨some [2], none⟩, okTraces 0 2, .ok (okLogs 0 2)⟩ := by
  constructor
  · exact upgradeToVersion_selection.1 Store quietConn [mockMig 1 none, mockMig 3 none]
      ⟨some [2], none⟩ ⟨some [2], none⟩ 2 3 rfl (by norm_num) (by norm_num)
      (by simp [mockMig])
  · simpa using upgradeToVersion_selection.2 0 2 1

/-- Claim C2, counterexample.  On the version-changed path the claim's
"the open transaction is aborted (rolled back)" is false: the code
returns the error without touching the transaction.  Concretely, with
the store at version 5 and a migration of version 3, apply begins,
re-reads 5 ≠ 2, and returns the version-changed error with trace
`[beginTx]` — no rollback event, and the final state still holds the
open transaction. -/
theorem apply_version_changed_no_rollback :
    Migrator.apply ⟨quietConn, []⟩ (mockMig 3 none) ⟨some [5], none⟩ =
      ⟨⟨some [5], some (some [5])⟩, [.beginTx], .error (.em .migrationVersionChanged)⟩ ∧
    Event.rollback ∉ (Migrator.apply ⟨quietConn, []⟩ (mockMig 3 none) ⟨some [5], none⟩).trace ∧
    (Migrator.apply ⟨quietConn, []⟩ (mockMig 3 none) ⟨some [5], none⟩).state.tx ≠ none :=
  ⟨rfl, by decide, by decide⟩

/-- Claim C2, amended.  After a successful begin, apply re-reads the
current version within the same attempt (the hypothesis constrains the
read at the post-begin state, not the value read at the start of the
upgrade call); a mismatch against migration.Version()-1 fails with the
version-changed error, with the trace exactly `[beginTx]` — so the
upgrade action is never invoked, no version is written, and the
transaction is neither rolled back nor committed: it is left open. -/
theorem apply_version_changed_guard {σ : Type} (m : Migrator σ) (migration : Mig σ)
    (s s1 s2 : σ) (v : Int)
    (hb : m.conn.beginTx s = (s1, .ok ()))
    (hq : m.conn.queryVersion s1 = (s2, .ok v))
    (hv : v ≠ migration.version - 1) :
    m.apply migration s = ⟨s2, [.beginTx], .error (.em .migrationVersionChanged)⟩ := by
  unfold Migrator.apply
  rw [hb]
  dsimp only
  rw [hq]
  dsimp only
  rw [if_pos hv]

/-- Claim C2, witness: the guard at a concrete mismatch (store at 9,
migration version 3). -/
theorem apply_version_changed_guard_witness :
    Migrator.apply ⟨quietConn, []⟩ (mockMig 3 none) ⟨some [9], none⟩ =
      ⟨⟨some [9], some (some [9])⟩, [.beginTx], .error (.em .migrationVersionChanged)⟩ :=
  apply_version_changed_guard ⟨quietConn, []⟩ (mockMig 3 none) ⟨some [9], none⟩
    ⟨some [9], some (some [9])⟩ ⟨some [9], some (some [9])⟩ 9 rfl rfl
    (by norm_num [mockMig])

/-- Claim C3.  During an upgrade call over the contiguous set 1..n (n =
k + 1 + rest.length) from version 0, if the upgrade action of the
migration at position k returns the error e (all earlier actions
succeed), then: the call's result is exactly `.error (.go e)` (the
action's error propagated verbatim), the trace is the k successful
per-migration transactions followed by `[beginTx, upgradeRun (k+1),
rollback]` — the failing migration's transaction is rolled back and no
later migration's action is ever invoked — and the committed store still
holds k, the version of the last successfully committed migration. -/
theorem action_failure_halts (k : Nat) (rest : List (Option GoErr)) (e : GoErr) :
    Migrator.UpgradeToVersion
      ⟨quietConn, consecMigs 0 (List.replicate k none ++ some e :: rest)⟩
      ((k + 1 + rest.length : Nat) : Int) ⟨some [0], none⟩ =
      ⟨⟨some [(k : Int)], none⟩,
       okTraces 0 k ++ [.beginTx, .upgradeRun ((k : Int) + 1), .rollback],
       .error (.go e)⟩ := by
  unfold Migrator.UpgradeToVersion
  dsimp only
  rw [show quietConn.queryVersion ⟨some [0], none⟩ = (⟨some [0], none⟩, .ok 0) from rfl]
  dsimp only
  rw [if_neg (by push_cast; omega)]
  rw [if_neg (by push_cast; omega)]
  rw [sortByVersion_eq_self (consecMigs_pairwise 0 _)]
  rw [if_neg (by norm_num)]
  simpa using applyLoop_quiet_fail
    (consecMigs 0 (List.replicate k none ++ some e :: rest)) k 0 e rest

/-- Claim C4, counterexample.  With a single owned record of version -1,
the highest version present is -1, but `Upgrade()` (whose `MaxVersion`
fold starts at 0) targets 0: on a store at version 0 it succeeds with
the already-current message, while `UpgradeToVersion(-1)` fails with the
downgrades-unsupported error — the two disagree, refuting "regardless of
which version numbers the records carry". -/
theorem upgrade_negative_version_counterexample :
    specHighestVersion ([mockMig (-1) none] : List (Mig Store)) = -1 ∧
    Migrator.Upgrade ⟨quietConn, [mockMig (-1) none]⟩ ⟨some [0], none⟩ =
      ⟨⟨some [0], none⟩, [], .ok [alreadyCurrentMessage]⟩ ∧
    Migrator.UpgradeToVersion ⟨quietConn, [mockMig (-1) none]⟩ (-1) ⟨some [0], none⟩ =
      ⟨⟨some [0], none⟩, [], .error (.em .downgradesUnsupported)⟩ :=
  ⟨rfl, rfl, rfl⟩

/-- Claim C4, amended.  Whenever the owned set is empty or some record
carries a non-negative version (so the 0-clamp in `MaxVersion` is
harmless), `Upgrade()` behaves identically — same state, same trace,
same result — to `UpgradeToVersion(v)` with v the highest version
present in the owned set (`specHighestVersion`, 0 for an empty set),
regardless of the order of the records in the slice. -/
theorem upgrade_targets_highest {σ : Type} (m : Migrator σ) (s : σ)
    (h : m.migrations = [] ∨ ∃ mig ∈ m.migrations, 0 ≤ mig.version) :
    m.Upgrade s = m.UpgradeToVersion (specHighestVersion m.migrations) s := by
  unfold Migrator.Upgrade
  obtain ⟨conn, migs⟩ := m
  dsimp only at h
  congr 1
  rw [maxVersion_eq_clamp]
  rcases h with h | ⟨mig, hm, hv⟩
  · rw [h]
    rfl
  · exact max_eq_right (le_trans hv (le_specHighest hm))

/-- Claim C4, witness: a concrete set with one record of version 2. -/
theorem upgrade_targets_highest_witness :
    Migrator.Upgrade ⟨quietConn, [mockMig 2 none]⟩ ⟨some [0], none⟩ =
      Migrator.UpgradeToVersion ⟨quietConn, [mockMig 2 none]⟩
        (specHighestVersion [mockMig 2 none]) ⟨some [0], none⟩ :=
  upgrade_targets_highest ⟨quietConn, [mockMig 2 none]⟩ ⟨some [0], none⟩
    (Or.inr ⟨mockMig 2 none, by simp, by norm_num [mockMig]⟩)

/-- Claim C5.  (1) On any store where the version probe succeeds, Init is
a no-op returning success, with an empty event trace — so Init is
idempotent.  (2) On the fresh quiet store (no table), Init creates the
table, inserts the 0 row and commits inside one transaction, and
immediately re-reading the version afterwards yields exactly 0.  (3) On
any connection where the bootstrap succeeds but the re-read returns
v ≠ 0, Init fails with the init-mismatch error. -/
theorem init_idempotent_and_bootstrap :
    (∀ (σ : Type) (m : Migrator σ) (s s1 : σ) (v : Int),
      m.conn.queryVersion s = (s1, .ok v) → m.Init s = ⟨s1, [], .ok ()⟩) ∧
    (Migrator.Init ⟨quietConn, []⟩ ⟨none, none⟩ =
      ⟨⟨some [0], none⟩, [.beginTx, .execCreateTable, .execInsertVersion, .commit], .ok ()⟩ ∧
     quietConn.queryVersion ⟨some [0], none⟩ = (⟨some [0], none⟩, .ok 0)) ∧
    (∀ (σ : Type) (m : Migrator σ) (s0 s1 s2 s3 s4 s5 s6 : σ) (e0 : GoErr) (v : Int),
      m.conn.queryVersion s0 = (s1, .error e0) →
      m.conn.beginTx s1 = (s2, .ok ()) →
      m.conn.execCreateTable s2 = (s3, .ok ()) →
      m.conn.execInsertVersion s3 = (s4, .ok ()) →
      m.conn.commitTx s4 = (s5, .ok ()) →
      m.conn.queryVersion s5 = (s6, .ok v) →
      v ≠ 0 →
      m.Init s0 = ⟨s6, [.beginTx, .execCreateTable, .execInsertVersion, .commit],
        .error (.em .initVersionMismatch)⟩) := by
  refine ⟨fun σ m s s1 v hq => ?_, ⟨rfl, rfl⟩,
    fun σ m s0 s1 s2 s3 s4 s5 s6 e0 v h1 h2 h3 h4 h5 h6 hv => ?_⟩
  · unfold Migrator.Init
    rw [hq]
  · unfold Migrator.Init
    rw [h1]
    dsimp only
    rw [h2]
    dsimp only
    rw [h3]
    dsimp only
    rw [h4]
    dsimp only
    rw [h5]
    dsimp only
    rw [h6]
    dsimp only
    rw [if_pos hv]

/-- Claim C5, witness: the no-op conjunct on an initialized quiet store
(version 5), and the mismatch conjunct on the scripted connection whose
post-commit re-read returns 7. -/
theorem init_idempotent_and_bootstrap_witness :
    Migrator.Init ⟨quietConn, []⟩ ⟨some [5], none⟩ = ⟨⟨some [5], none⟩, [], .ok ()⟩ ∧
    Migrator.Init ⟨mismatchConn, []⟩ 0 =
      ⟨2, [.beginTx, .execCreateTable, .execInsertVersion, .commit],
       .error (.em .initVersionMismatch)⟩ :=
  ⟨init_idempotent_and_bootstrap.1 Store ⟨quietConn, []⟩ ⟨some [5], none⟩
     ⟨some [5], none⟩ 5 rfl,
   init_idempotent_and_bootstrap.2.2 Nat ⟨mismatchConn, []⟩ 0 1 1 1 1 1 2 .noRows 7
     rfl rfl rfl rfl rfl rfl (by norm_num)⟩

/-- Claim C6.  The update and read statements of src/migration.go do NOT
address the same stored value: `QuerySetVersionMigrationGo` targets
table `migration` while `QueryGetCurrentVersion` reads table `emigrate`.
Executed against a store that (per the engine's own Init) has only the
`emigrate` table with row 0, the update fails (no such table) and the
subsequent read still returns 0, not the written value — whereas the
later revision's `QuerySetVersion` (unnamed/part_000) updates `emigrate`
and round-trips correctly, confirming the mismatch is a slip in
src/migration.go. -/
theorem querySetVersion_table_mismatch :
    updateTableOf (QuerySetVersionMigrationGo 1) = some ("migration", 1) ∧
    updateTableOf (QuerySetVersion 1) = some ("emigrate", 1) ∧
    runUpdate (QuerySetVersionMigrationGo 1) ⟨some [0], none⟩ =
      (⟨some [0], none⟩, .error .noSuchTable) ∧
    runSelect QueryGetCurrentVersion ⟨some [0], none⟩ = .ok 0 ∧
    runUpdate (QuerySetVersion 1) ⟨some [0], none⟩ = (⟨some [1], none⟩, .ok ()) ∧
    runSelect QueryGetCurrentVersion ⟨some [1], none⟩ = .ok 1 :=
  ⟨rfl, rfl, rfl, rfl, rfl, rfl⟩

/-- Claim C7.  `1_up.sql` and `01_up.sql` both parse to version 1 and
direction "up" (leading zeros are dropped by the integer parse), they
land in the same version group, and discovery of a directory holding
exactly these two files fails with the duplicate-migration error for
direction "up", version 1, returning no migration set. -/
theorem discovery_duplicate_up :
    parseNameInfo "migrations" "1_up.sql" =
      .ok (some ⟨"migrations", "1_up.sql", 1, "up", "sql"⟩) ∧
    parseNameInfo "migrations" "01_up.sql" =
      .ok (some ⟨"migrations", "01_up.sql", 1, "up", "sql"⟩) ∧
    migrationFinder.groupByVersion
      (mockFinder "migrations" [("1_up.sql", ""), ("01_up.sql", "")]) "migrations" =
      .ok [(1, [⟨"migrations", "1_up.sql", 1, "up", "sql"⟩,
                ⟨"migrations", "01_up.sql", 1, "up", "sql"⟩])] ∧
    migrationFinder.getMigrations
      (mockFinder "migrations" [("1_up.sql", ""), ("01_up.sql", "")]) "migrations" =
      .error (.duplicateMigration "up" 1) :=
  ⟨rfl, rfl, rfl, rfl⟩

/-- Claim C8.  Discovery over exactly 001_up.sql, 002_up.sql, 003_up.sql
succeeds with exactly three script-backed migrations of versions 1, 2, 3,
each with empty downgrade body; and in general any successful discovery
returns a list sorted ascending by version. -/
theorem discovery_three_ups_sorted :
    migrationFinder.getMigrations
      (mockFinder "migrations" [("001_up.sql", ""), ("002_up.sql", ""), ("003_up.sql", "")])
      "migrations" = .ok [⟨1, "", ""⟩, ⟨2, "", ""⟩, ⟨3, "", ""⟩] ∧
    (∀ (mf : migrationFinder) (dir : String) (ms : List StringMigration),
      mf.getMigrations dir = .ok ms →
      ms.Pairwise (fun a b => a.version ≤ b.version)) := by
  refine ⟨rfl, fun mf dir ms h => ?_⟩
  unfold migrationFinder.getMigrations at h
  rcases hg : mf.groupByVersion dir with e | groups
  · rw [hg] at h
    exact absurd h (by simp)
  · rw [hg] at h
    dsimp only at h
    rcases hb : buildMigs mf groups with e | ms0
    · rw [hb] at h
      exact absurd h (by simp)
    · rw [hb] at h
      dsimp only at h
      cases h
      exact sortByVersion_pairwise StringMigration.version ms0

/-- Claim C8, witness: the sortedness conjunct applied to the concrete
three-file discovery. -/
theorem discovery_three_ups_sorted_witness :
    ([⟨1, "", ""⟩, ⟨2, "", ""⟩, ⟨3, "", ""⟩] : List StringMigration).Pairwise
      (fun a b => a.version ≤ b.version) :=
  discovery_three_ups_sorted.2
    (mockFinder "migrations" [("001_up.sql", ""), ("002_up.sql", ""), ("003_up.sql", "")])
    "migrations" _ discovery_three_ups_sorted.1

/-- Claim C9, counterexample.  The action-backed variant's Downgrade
performs no nil check: with a nil downgrade action it calls the nil
function value, i.e. the process panics (`none` in the model) instead of
returning a "no downgrade defined" error value — refuting "does not
crash ... for both variants". -/
theorem functionMigration_downgrade_nil_crash :
    FunctionMigration.Downgrade (⟨7, none, none⟩ : FunctionMigration Unit) () = none :=
  rfl

/-- Claim C9, amended.  The script-backed variant with an empty down body
returns the explicit no-downgrade-defined error naming the migration's
version, executing nothing against the transactional resource (empty
statement trace, state unchanged); the action-backed variant performs no
such check — with a nil down action, Downgrade is a nil-function call
(a crash), not an error return. -/
theorem downgrade_no_reverse_step :
    (∀ (σ : Type) (execStmt : String → σ → σ × Except GoErr Unit)
       (m : StringMigration) (s : σ),
      m.down = "" →
      m.Downgrade execStmt s = (s, [], .error (.noDowngradeDefined m.version))) ∧
    (∀ (σ : Type) (m : FunctionMigration σ) (s : σ),
      m.down = none → m.Downgrade s = none) := by
  constructor
  · intro σ execStmt m s h
    unfold StringMigration.Downgrade
    rw [if_pos h]
  · intro σ m s h
    unfold FunctionMigration.Downgrade
    rw [h]

/-- Claim C9, witness: both conjuncts at concrete migrations with no
reverse step. -/
theorem downgrade_no_reverse_step_witness :
    StringMigration.Downgrade (fun _ s => (s, .ok ())) ⟨4, "CREATE TABLE x (y INTEGER)", ""⟩ () =
      ((), [], .error (.noDowngradeDefined 4)) ∧
    FunctionMigration.Downgrade (⟨4, none, none⟩ : FunctionMigration Unit) () = none :=
  ⟨downgrade_no_reverse_step.1 Unit (fun _ s => (s, .ok ()))
     ⟨4, "CREATE TABLE x (y INTEGER)", ""⟩ () rfl,
   downgrade_no_reverse_step.2 Unit ⟨4, none, none⟩ () rfl⟩

/-- Claim C10.  If the current-version re-read inside apply fails after a
successful begin, apply returns that error verbatim with trace exactly
`[beginTx]`: no commit and no rollback are performed on the transaction
it opened — the transaction is left open. -/
theorem apply_reread_error_leaves_tx_open {σ : Type} (m : Migrator σ) (migration : Mig σ)
    (s s1 s2 : σ) (e : GoErr)
    (hb : m.conn.beginTx s = (s1, .ok ()))
    (hq : m.conn.queryVersion s1 = (s2, .error e)) :
    m.apply migration s = ⟨s2, [.beginTx], .error (.go e)⟩ := by
  unfold Migrator.apply
  rw [hb]
  dsimp only
  rw [hq]

/-- Claim C10, witness: on the quiet store with no table, the re-read
inside apply fails with the no-such-table error; the final state still
holds the open transaction. -/
theorem apply_reread_error_leaves_tx_open_witness :
    Migrator.apply ⟨quietConn, []⟩ (mockMig 1 none) ⟨none, none⟩ =
      ⟨⟨none, some none⟩, [.beginTx], .error (.go .noSuchTable)⟩ :=
  apply_reread_error_leaves_tx_open ⟨quietConn, []⟩ (mockMig 1 none) ⟨none, none⟩
    ⟨none, some none⟩ ⟨none, some none⟩ .noSuchTable rfl rfl

end Emigrate
